import Mathlib

/-!
Verification of the rvlp authorization and data-integrity rule set.

The definitions below are a shallow embedding of the repository's code:
the TypeScript helpers in `src/lib/users.ts` and `src/types/user.ts`, the
SQL tables, views, triggers and functions in
`src/supabase/migrations/001_create_users_rls.sql`,
`src/supabase/migrations/003_get_all_public_profiles.sql`, the
`handle_new_user` trigger function reproduced in `src/docs/SETUP.md`,
and the VCT schema in `src/unnamed/part_005` (004_create_vct_schema.sql).
Tables are lists of rows; SQL timestamps are natural numbers; a statement
that can raise is a function into `Except` or a pair with an error flag,
and an exception raised inside a trigger rolls the enclosing statement
back (the prior state is returned unchanged).
-/

namespace Rvlp

/-- Row of `public.users` (001_create_users_rls.sql lines 7-20), matching
the TypeScript interface `FullUserProfile` in `src/types/user.ts`. -/
structure FullUserProfile where
  user_id : String
  provider_id : String
  oauth_username : String
  email : Option String
  display_name : Option String
  avatar_url : Option String
  created_at : Nat
  updated_at : Nat
  deriving DecidableEq, Repr

/-- Public shape, matching the TypeScript interface `UserProfile` in
`src/types/user.ts` and the column list of the view
`public.user_profiles_public` (001_create_users_rls.sql lines 79-85). -/
structure UserProfile where
  user_id : String
  oauth_username : String
  display_name : Option String
  avatar_url : Option String
  deriving DecidableEq, Repr

/-- `toPublicProfile` from `src/lib/users.ts` lines 16-23: copies the four
public fields of a full profile into a `UserProfile`. -/
def toPublicProfile (profile : FullUserProfile) : UserProfile :=
  { user_id := profile.user_id
    oauth_username := profile.oauth_username
    display_name := profile.display_name
    avatar_url := profile.avatar_url }

/-- `excludeCurrentUser` from `src/lib/users.ts` lines 32-37: keeps the
profiles whose `user_id` differs from the current user's id. -/
def excludeCurrentUser (users : List UserProfile) (currentUserId : String) :
    List UserProfile :=
  users.filter (fun user => user.user_id ≠ currentUserId)

/-- The view `public.user_profiles_public` (001_create_users_rls.sql lines
79-85): the users table projected through the public column list. -/
def user_profiles_public (users : List FullUserProfile) : List UserProfile :=
  users.map toPublicProfile

/-- `public.get_all_public_profiles()` (003_get_all_public_profiles.sql
lines 23-47): selects the `user_profiles_public` view ordered by
`oauth_username` ascending. -/
def get_all_public_profiles (users : List FullUserProfile) : List UserProfile :=
  (user_profiles_public users).mergeSort
    (fun a b => a.oauth_username ≤ b.oauth_username)

/-- C4: `toPublicProfile` is a pure total function that copies exactly the
four public fields unchanged, and its output does not depend on `email`,
`provider_id` or the timestamps — so neither `email` nor `provider_id` can
appear in it. -/
theorem toPublicProfile_copies_public_fields_only (p : FullUserProfile) :
    (toPublicProfile p).user_id = p.user_id ∧
    (toPublicProfile p).oauth_username = p.oauth_username ∧
    (toPublicProfile p).display_name = p.display_name ∧
    (toPublicProfile p).avatar_url = p.avatar_url ∧
    ∀ e pid ca ua, toPublicProfile
      { p with email := e, provider_id := pid, created_at := ca, updated_at := ua }
      = toPublicProfile p := by
  refine ⟨rfl, rfl, rfl, rfl, fun e pid ca ua => rfl⟩

/-- C10: `excludeCurrentUser` returns exactly the profiles whose `user_id`
differs from the given id (with multiplicity), as a sublist of the input
(so relative order is preserved); in particular no profile with the
caller's own id — such as the caller's own profile, as used for the
dashboard sidebar in `src/app/dashboard/layout.tsx` line 41 — survives. -/
theorem excludeCurrentUser_exactly_others (users : List UserProfile)
    (currentUserId : String) :
    (excludeCurrentUser users currentUserId).Sublist users ∧
    (∀ u, u ∈ excludeCurrentUser users currentUserId ↔
      (u ∈ users ∧ u.user_id ≠ currentUserId)) ∧
    (∀ u, (excludeCurrentUser users currentUserId).count u =
      if u.user_id ≠ currentUserId then users.count u else 0) := by
  refine ⟨List.filter_sublist users, fun u => ?_, fun u => ?_⟩
  · simp [excludeCurrentUser, List.mem_filter]
  · simp only [excludeCurrentUser]
    rcases eq_or_ne u.user_id currentUserId with h | h
    · have h0 : ¬ (u.user_id ≠ currentUserId) := by simpa using h
      rw [if_neg h0, List.count_eq_zero]
      intro hmem
      have hx := (List.mem_filter.1 hmem).2
      simp [h] at hx
    · rw [if_pos h]
      exact List.count_filter (by simpa using h)

/-- C5: `get_all_public_profiles` returns a permutation of the projection of
the whole users table through `toPublicProfile` — one entry per provisioned
identity record and no others, every entry read only through the public
projection — sorted by `oauth_username` ascending. -/
theorem get_all_public_profiles_sorted_projection (users : List FullUserProfile) :
    (get_all_public_profiles users).Perm (users.map toPublicProfile) ∧
    List.Sorted (fun a b : UserProfile => a.oauth_username ≤ b.oauth_username)
      (get_all_public_profiles users) ∧
    (∀ x, x ∈ get_all_public_profiles users ↔ ∃ u ∈ users, x = toPublicProfile u) := by
  have hperm : (get_all_public_profiles users).Perm (users.map toPublicProfile) :=
    List.mergeSort_perm (user_profiles_public users) _
  refine ⟨hperm, ?_, ?_⟩
  · have hp := @List.sorted_mergeSort UserProfile
      (fun a b => decide (a.oauth_username ≤ b.oauth_username))
      (fun a b c hab hbc => by
        simp only [decide_eq_true_eq] at hab hbc ⊢
        exact le_trans hab hbc)
      (fun a b => by
        simp only [Bool.or_eq_true, decide_eq_true_eq]
        exact le_total _ _)
      (user_profiles_public users)
    exact hp.imp (fun h => by simpa using h)
  · intro x
    rw [hperm.mem_iff, List.mem_map]
    constructor
    · rintro ⟨u, hu, rfl⟩; exact ⟨u, hu, rfl⟩
    · rintro ⟨u, hu, rfl⟩; exact ⟨u, hu, rfl⟩

/-- `public.set_updated_at()` (001_create_users_rls.sql lines 25-31): the
BEFORE UPDATE trigger that stamps `NEW.updated_at = NOW()`. -/
def set_updated_at (now : Nat) (new : FullUserProfile) : FullUserProfile :=
  { new with updated_at := now }

/-- A rejected write, as in the spec's error taxonomy; the field name is the
one named by the `RAISE EXCEPTION '<field> cannot be changed'` message of the
corresponding trigger function. -/
inductive WriteError where
  | ImmutableFieldViolation (field : String)
  deriving DecidableEq, Repr

/-- `public.prevent_system_field_updates()` (001_create_users_rls.sql lines
92-109): BEFORE UPDATE trigger on `public.users`; raises when `user_id`,
`provider_id` or `oauth_username` differs between OLD and NEW, else lets
NEW through. -/
def prevent_system_field_updates (old new : FullUserProfile) :
    Except WriteError FullUserProfile :=
  if old.user_id ≠ new.user_id then
    .error (.ImmutableFieldViolation "user_id")
  else if old.provider_id ≠ new.provider_id then
    .error (.ImmutableFieldViolation "provider_id")
  else if old.oauth_username ≠ new.oauth_username then
    .error (.ImmutableFieldViolation "oauth_username")
  else
    .ok new

/-- An UPDATE of a row of `public.users`: both BEFORE UPDATE triggers run
(`ensure_immutable_fields` fires before `users_set_updated_at`, 001 lines
33-36 and 111-114); a raise in the trigger aborts the statement, so the
stored row stays OLD and the error is surfaced to the caller. -/
def updateUserRecord (now : Nat) (old new : FullUserProfile) :
    FullUserProfile × Option WriteError :=
  match prevent_system_field_updates old new with
  | .error e => (old, some e)
  | .ok r => (set_updated_at now r, none)

/-- C2: an update attempt changing `user_id`, `provider_id` or
`oauth_username` is rejected with `ImmutableFieldViolation` and the stored
record is left unchanged, while an update keeping those three fields
succeeds and persists the new `display_name`, `avatar_url` and `email`. -/
theorem updateUserRecord_immutable_fields (now : Nat) (old new : FullUserProfile) :
    (old.user_id ≠ new.user_id ∨ old.provider_id ≠ new.provider_id ∨
        old.oauth_username ≠ new.oauth_username →
      (updateUserRecord now old new).1 = old ∧
      ∃ f, (updateUserRecord now old new).2 = some (.ImmutableFieldViolation f)) ∧
    (old.user_id = new.user_id → old.provider_id = new.provider_id →
        old.oauth_username = new.oauth_username →
      (updateUserRecord now old new).2 = none ∧
      (updateUserRecord now old new).1 =
        { new with updated_at := now }) := by
  constructor
  · intro hchange
    rcases hchange with h | h | h <;>
      · simp only [updateUserRecord, prevent_system_field_updates]
        by_cases h1 : old.user_id = new.user_id <;>
          by_cases h2 : old.provider_id = new.provider_id <;>
            simp_all
  · intro h1 h2 h3
    simp [updateUserRecord, prevent_system_field_updates, set_updated_at, h1, h2, h3]

/-- C2 witness: a concrete profile whose handle change is rejected with the
record unchanged, and whose display-name-only change persists. -/
theorem updateUserRecord_immutable_fields_witness :
    ((updateUserRecord 5 ⟨"u1", "d1", "alice", none, some "A", none, 1, 1⟩
        ⟨"u1", "d1", "bob", none, some "A", none, 1, 1⟩).1 =
      ⟨"u1", "d1", "alice", none, some "A", none, 1, 1⟩ ∧
      ∃ f, (updateUserRecord 5 ⟨"u1", "d1", "alice", none, some "A", none, 1, 1⟩
        ⟨"u1", "d1", "bob", none, some "A", none, 1, 1⟩).2 =
          some (.ImmutableFieldViolation f)) ∧
    ((updateUserRecord 5 ⟨"u1", "d1", "alice", none, some "A", none, 1, 1⟩
        ⟨"u1", "d1", "alice", none, some "B", none, 1, 1⟩).2 = none ∧
      (updateUserRecord 5 ⟨"u1", "d1", "alice", none, some "A", none, 1, 1⟩
        ⟨"u1", "d1", "alice", none, some "B", none, 1, 1⟩).1 =
      ⟨"u1", "d1", "alice", none, some "B", none, 1, 5⟩) :=
  ⟨(updateUserRecord_immutable_fields 5 _ _).1 (by simp),
   (updateUserRecord_immutable_fields 5 _ _).2 rfl rfl rfl⟩

/-- A row of `auth.users` as seen by `handle_new_user` (src/docs/SETUP.md
lines 193-243): the id, the email, and the `raw_user_meta_data` keys the
function extracts with `->>` (each `none` when the key is missing). -/
structure AuthUser where
  id : String
  email : Option String
  meta_provider_id : Option String
  meta_name : Option String
  meta_full_name : Option String
  meta_avatar_url : Option String
  deriving DecidableEq, Repr

/-- Outcome of one invocation of `handle_new_user`. -/
inductive ProvisionOutcome where
  /-- The INSERT into `public.users` went through. -/
  | inserted
  /-- `ON CONFLICT (user_id) DO NOTHING`: a row for this principal already
  exists (SETUP.md line 235). -/
  | skippedExisting
  /-- A `unique_violation` on `provider_id` or `oauth_username` was caught
  by the inner EXCEPTION block and logged (SETUP.md lines 236-239). -/
  | conflictLogged
  /-- `RAISE EXCEPTION` because `provider_id` or `name` is absent from the
  claims (SETUP.md lines 208-211): the exception escapes the function. -/
  | missingClaimError
  deriving DecidableEq, Repr

/-- The profile row `handle_new_user` builds (SETUP.md lines 215-234):
`display_name = COALESCE(v_full_name, NEW.email, v_oauth_username)`. -/
def mkProfileRow (now : Nat) (a : AuthUser) (pid uname : String) :
    FullUserProfile :=
  { user_id := a.id
    provider_id := pid
    oauth_username := uname
    email := a.email
    display_name := a.meta_full_name <|> a.email <|> some uname
    avatar_url := a.meta_avatar_url
    created_at := now
    updated_at := now }

/-- `public.handle_new_user()` (src/docs/SETUP.md lines 193-243) acting on
the `public.users` table: extracts the claims, raises when `provider_id` or
`name` is missing, otherwise inserts with `ON CONFLICT (user_id) DO NOTHING`
and catches a `unique_violation` on the other unique constraints. -/
def handle_new_user (now : Nat) (profiles : List FullUserProfile)
    (a : AuthUser) : List FullUserProfile × ProvisionOutcome :=
  match a.meta_provider_id, a.meta_name with
  | some pid, some uname =>
    if profiles.any (fun r => r.user_id == a.id) then
      (profiles, .skippedExisting)
    else if profiles.any (fun r => r.provider_id == pid || r.oauth_username == uname) then
      (profiles, .conflictLogged)
    else
      (profiles ++ [mkProfileRow now a pid uname], .inserted)
  | _, _ => (profiles, .missingClaimError)

/-- Database state touched by a signup: the upstream `auth.users` table and
the `public.users` profile table. -/
structure SignupState where
  auth_users : List AuthUser
  profiles : List FullUserProfile
  deriving DecidableEq, Repr

/-- One signup event: the INSERT into `auth.users` fires the AFTER INSERT
trigger `on_auth_user_created` (SETUP.md lines 251-254) running
`handle_new_user` in the same transaction. An exception escaping the
trigger aborts the transaction, rolling back the `auth.users` insert
itself; the returned flag is `true` iff the signup committed. -/
def signupEvent (now : Nat) (st : SignupState) (a : AuthUser) :
    SignupState × Bool :=
  match handle_new_user now st.profiles a with
  | (_, .missingClaimError) => (st, false)
  | (ps, _) => (⟨st.auth_users ++ [a], ps⟩, true)

/-- C1 evaluation: with an empty database, a signup whose claims lack
`provider_id` creates no profile row — but, because `handle_new_user`
uses `RAISE EXCEPTION`, the whole transaction aborts and the `auth.users`
insert itself is rolled back: the signup event does not succeed,
contradicting the spec's non-fatal `MissingRequiredClaim` behaviour. -/
theorem signup_missing_claim_aborts_upstream_insert :
    signupEvent 0 ⟨[], []⟩
        ⟨"u1", some "a@example.com", none, some "alice", none, none⟩ =
      (⟨[], []⟩, false) ∧
    handle_new_user 0 []
        ⟨"u1", some "a@example.com", none, some "alice", none, none⟩ =
      ([], .missingClaimError) := by
  constructor <;> rfl

/-- C6: re-invoking provisioning for a principal that already has an
identity record (with the required claims present) is a no-op: the
profiles table is returned unchanged, the outcome is the logged
`ON CONFLICT (user_id) DO NOTHING` skip, and no error escapes (so the
enclosing signup transaction is not aborted). -/
theorem handle_new_user_reinvocation_noop (now : Nat)
    (profiles : List FullUserProfile) (a : AuthUser) (pid uname : String)
    (hpid : a.meta_provider_id = some pid) (hname : a.meta_name = some uname)
    (hexists : profiles.any (fun r => r.user_id == a.id) = true) :
    handle_new_user now profiles a = (profiles, .skippedExisting) := by
  simp [handle_new_user, hpid, hname, hexists]

/-- C6 witness: re-provisioning a concrete principal that already has a
profile row leaves the table unchanged with a non-error outcome. -/
theorem handle_new_user_reinvocation_noop_witness :
    handle_new_user 7 [⟨"u1", "d1", "alice", none, some "A", none, 1, 1⟩]
        ⟨"u1", some "a@example.com", some "d1", some "alice", none, none⟩ =
      ([⟨"u1", "d1", "alice", none, some "A", none, 1, 1⟩], .skippedExisting) :=
  handle_new_user_reinvocation_noop 7 _ _ "d1" "alice" rfl rfl (by decide)

/-- C7: when provisioning a new principal whose `provider_id` or
`oauth_username` already belongs to a different principal, the
`unique_violation` is caught and logged: no profile row is created, and the
upstream `auth.users` insert still commits (the signup is not rolled
back). -/
theorem handle_new_user_conflict_logged (now : Nat) (st : SignupState)
    (a : AuthUser) (pid uname : String)
    (hpid : a.meta_provider_id = some pid) (hname : a.meta_name = some uname)
    (hnew : st.profiles.any (fun r => r.user_id == a.id) = false)
    (hconf : st.profiles.any
      (fun r => r.provider_id == pid || r.oauth_username == uname) = true) :
    handle_new_user now st.profiles a = (st.profiles, .conflictLogged) ∧
    signupEvent now st a = (⟨st.auth_users ++ [a], st.profiles⟩, true) := by
  have h1 : handle_new_user now st.profiles a = (st.profiles, .conflictLogged) := by
    simp [handle_new_user, hpid, hname, hnew, hconf]
  exact ⟨h1, by simp [signupEvent, h1]⟩

/-- C7 witness: a concrete second principal reusing an existing handle is
skipped with the conflict logged, while the auth-side insert goes
through. -/
theorem handle_new_user_conflict_logged_witness :
    handle_new_user 9 [⟨"u1", "d1", "alice", none, some "A", none, 1, 1⟩]
        ⟨"u2", none, some "d2", some "alice", none, none⟩ =
      ([⟨"u1", "d1", "alice", none, some "A", none, 1, 1⟩], .conflictLogged) ∧
    signupEvent 9 ⟨[], [⟨"u1", "d1", "alice", none, some "A", none, 1, 1⟩]⟩
        ⟨"u2", none, some "d2", some "alice", none, none⟩ =
      (⟨[⟨"u2", none, some "d2", some "alice", none, none⟩],
        [⟨"u1", "d1", "alice", none, some "A", none, 1, 1⟩]⟩, true) :=
  handle_new_user_conflict_logged 9
    ⟨[], [⟨"u1", "d1", "alice", none, some "A", none, 1, 1⟩]⟩
    ⟨"u2", none, some "d2", some "alice", none, none⟩ "d2" "alice"
    rfl rfl (by decide) (by decide)

/-- Row of `public.votes` (src/unnamed/part_005 lines 554-563):
`vote_team_id` is nullable (`ON DELETE SET NULL`), and
`votes_unique_user_match` makes (user_id, match_id) unique. -/
structure Vote where
  user_id : String
  match_id : String
  vote_team_id : Option String
  created_at : Nat
  updated_at : Nat
  deriving DecidableEq, Repr

/-- The (user_id, match_id) key of `votes_unique_user_match`. -/
def voteKey (p m : String) (v : Vote) : Bool :=
  v.user_id == p && v.match_id == m

/-- Updating an existing vote row: only `vote_team_id` changes —
`prevent_votes_updates` (src/unnamed/part_005 lines 151-166) keeps
`user_id`, `match_id` and `created_at`, and `set_updated_at_on_votes`
stamps `updated_at`. -/
def setVoteTeam (now : Nat) (t : String) (v : Vote) : Vote :=
  { v with vote_team_id := some t, updated_at := now }

/-- Modelled from the spec: the Prediction Ledger's `castOrUpdate`
operation (spec 4.5) has no implementation under src/ — only the `votes`
table with `votes_unique_user_match` and the `prevent_votes_updates`
trigger are there. Per the spec it is an upsert keyed on
(user_id, match_id): an existing row for the pair gets its predicted team
replaced (through `setVoteTeam`, respecting the trigger), otherwise a new
row is inserted. -/
def castOrUpdate (now : Nat) (p m t : String) (votes : List Vote) : List Vote :=
  if votes.any (voteKey p m) then
    votes.map (fun v => if voteKey p m v then setVoteTeam now t v else v)
  else
    votes ++ [⟨p, m, some t, now, now⟩]

/-- A sequence of `castOrUpdate` calls by principal `p` for match `m`,
each with its timestamp and chosen team. -/
def castSeq (p m : String) (ops : List (Nat × String)) (votes : List Vote) :
    List Vote :=
  ops.foldl (fun vs op => castOrUpdate op.1 p m op.2 vs) votes

lemma voteKey_setVoteTeam (now : Nat) (p m t : String) (v : Vote) :
    voteKey p m (setVoteTeam now t v) = voteKey p m v := rfl

lemma filter_map_setVoteTeam (now : Nat) (p m t : String) :
    ∀ votes : List Vote,
      (votes.map (fun v => if voteKey p m v then setVoteTeam now t v else v)).filter
          (voteKey p m) =
        (votes.filter (voteKey p m)).map (setVoteTeam now t)
  | [] => rfl
  | v :: vs => by
    by_cases h : voteKey p m v = true
    · simp [List.filter_cons, h, voteKey_setVoteTeam,
        filter_map_setVoteTeam now p m t vs]
    · simp [List.filter_cons, h, voteKey_setVoteTeam,
        filter_map_setVoteTeam now p m t vs]

lemma castOrUpdate_filter_single (now : Nat) (p m t : String)
    (votes : List Vote)
    (hwf : (votes.filter (voteKey p m)).length ≤ 1) :
    ∃ w, (castOrUpdate now p m t votes).filter (voteKey p m) = [w] ∧
      w.vote_team_id = some t := by
  by_cases hany : votes.any (voteKey p m) = true
  · obtain ⟨x, hx, hkx⟩ := List.any_eq_true.1 hany
    have hxf : x ∈ votes.filter (voteKey p m) := List.mem_filter.2 ⟨hx, hkx⟩
    have hlen : (votes.filter (voteKey p m)).length = 1 := by
      have h0 := List.length_pos_of_mem hxf
      omega
    obtain ⟨w0, hw0⟩ := List.length_eq_one.1 hlen
    refine ⟨setVoteTeam now t w0, ?_, rfl⟩
    rw [castOrUpdate, if_pos hany, filter_map_setVoteTeam, hw0]
    rfl
  · refine ⟨⟨p, m, some t, now, now⟩, ?_, rfl⟩
    have h1 : votes.filter (voteKey p m) = [] := by
      rw [List.filter_eq_nil_iff]
      intro a ha hk
      exact hany (List.any_eq_true.2 ⟨a, ha, hk⟩)
    rw [castOrUpdate, if_neg hany, List.filter_append, h1]
    simp [voteKey]

lemma castSeq_filter_single (p m : String) :
    ∀ (ops : List (Nat × String)) (op : Nat × String) (votes : List Vote),
      (votes.filter (voteKey p m)).length ≤ 1 →
      ops.getLast? = some op →
      ∃ w, (castSeq p m ops votes).filter (voteKey p m) = [w] ∧
        w.vote_team_id = some op.2
  | [], op, votes, _, hlast => by simp at hlast
  | [op1], op, votes, hwf, hlast => by
    obtain rfl : op1 = op := by simpa using hlast
    exact castOrUpdate_filter_single op1.1 p m op1.2 votes hwf
  | op1 :: op2 :: rest, op, votes, hwf, hlast => by
    obtain ⟨w, hw, -⟩ :=
      castOrUpdate_filter_single op1.1 p m op1.2 votes hwf
    have hwf' : ((castOrUpdate op1.1 p m op1.2 votes).filter
        (voteKey p m)).length ≤ 1 := by
      rw [hw]; exact le_refl 1
    have hlast' : (op2 :: rest).getLast? = some op := by
      rw [← hlast, List.getLast?_cons_cons]
    exact castSeq_filter_single p m (op2 :: rest) op
      (castOrUpdate op1.1 p m op1.2 votes) hwf' hlast'

/-- C3: starting from a table satisfying the `votes_unique_user_match`
constraint (at most one row for (p, m)), after any nonempty sequence of
`castOrUpdate` calls by principal `p` for match `m`, exactly one vote row
for (p, m) exists, its predicted team is the last call's argument, and its
ownership fields still read (p, m). -/
theorem castSeq_exactly_one_vote (p m : String) (ops : List (Nat × String))
    (op : Nat × String) (votes : List Vote)
    (hwf : (votes.filter (voteKey p m)).length ≤ 1)
    (hlast : ops.getLast? = some op) :
    ((castSeq p m ops votes).filter (voteKey p m)).length = 1 ∧
    ∀ v ∈ (castSeq p m ops votes).filter (voteKey p m),
      v.user_id = p ∧ v.match_id = m ∧ v.vote_team_id = some op.2 := by
  obtain ⟨w, hw, ht⟩ := castSeq_filter_single p m ops op votes hwf hlast
  refine ⟨by rw [hw]; rfl, fun v hv => ?_⟩
  have hkey : voteKey p m v = true := (List.mem_filter.1 hv).2
  simp only [voteKey, Bool.and_eq_true, beq_iff_eq] at hkey
  have hvw : v = w := by
    rw [hw] at hv
    simpa using hv
  exact ⟨hkey.1, hkey.2, hvw ▸ ht⟩

/-- C3 witness: one principal casting twice for the same match ends with a
single row carrying the team of the second cast. -/
theorem castSeq_exactly_one_vote_witness :
    ((castSeq "u1" "m1" [(1, "tA"), (2, "tB")] []).filter
        (voteKey "u1" "m1")).length = 1 ∧
    ∀ v ∈ (castSeq "u1" "m1" [(1, "tA"), (2, "tB")] []).filter
        (voteKey "u1" "m1"),
      v.user_id = "u1" ∧ v.match_id = "m1" ∧ v.vote_team_id = some "tB" :=
  castSeq_exactly_one_vote "u1" "m1" [(1, "tA"), (2, "tB")] (2, "tB") []
    (by decide) (by decide)

/-- Team ids of the votes counted by `vote_stats_public` for match `m`:
the rows with `v.vote_team_id IS NOT NULL` in the partition
`v.match_id = m` (src/unnamed/part_005 lines 640-642). -/
def matchTeamIds (m : String) (votes : List Vote) : List String :=
  votes.filterMap (fun v => if v.match_id == m then v.vote_team_id else none)

/-- `ROUND(q, 2)`: round to two decimal places, half away from zero — on
the nonnegative values produced here, `round` (half up) agrees. -/
def round2 (q : ℚ) : ℚ := (round (q * 100) : ℤ) / 100

/-- Row of the view `public.vote_stats_public` (src/unnamed/part_005 lines
632-643), without the joined team-name columns. -/
structure VoteStatRow where
  match_id : String
  vote_team_id : String
  vote_count : Nat
  vote_percentage : ℚ
  deriving DecidableEq, Repr

/-- `public.vote_stats_public` restricted to match `m`: one row per
distinct voted team, with `COUNT(*)` and
`ROUND(COUNT(*) * 100.0 / SUM(COUNT(*)) OVER (PARTITION BY match_id), 2)`. -/
def vote_stats_public (m : String) (votes : List Vote) : List VoteStatRow :=
  (matchTeamIds m votes).dedup.map (fun t =>
    ⟨m, t, (matchTeamIds m votes).count t,
      round2 (((matchTeamIds m votes).count t : ℚ) * 100 /
        ((matchTeamIds m votes).length : ℚ))⟩)

lemma round2_sub_le (q : ℚ) : |round2 q - q| ≤ 1 / 200 := by
  have h := abs_sub_round (q * 100)
  rw [abs_sub_comm] at h
  have heq : round2 q - q = ((round (q * 100) : ℚ) - q * 100) / 100 := by
    rw [round2]; ring
  rw [heq, abs_div, show |(100 : ℚ)| = 100 by norm_num]
  linarith

lemma abs_list_sum_le (l : List ℚ) : |l.sum| ≤ (l.map (fun x => |x|)).sum := by
  induction l with
  | nil => simp
  | cons x xs ih =>
    simp only [List.sum_cons, List.map_cons]
    calc |x + xs.sum| ≤ |x| + |xs.sum| := abs_add _ _
    _ ≤ |x| + (xs.map (fun y => |y|)).sum := by linarith

lemma list_sum_le_length_mul (l : List ℚ) (c : ℚ) (h : ∀ x ∈ l, x ≤ c) :
    l.sum ≤ l.length * c := by
  induction l with
  | nil => simp
  | cons x xs ih =>
    simp only [List.sum_cons, List.length_cons]
    have hx := h x (by simp)
    have hxs := ih (fun y hy => h y (by simp [hy]))
    have hc : ((xs.length + 1 : ℕ) : ℚ) * c = (xs.length : ℚ) * c + c := by
      push_cast; ring
    rw [hc]
    linarith

lemma list_sum_map_sub {α : Type} (f g : α → ℚ) (l : List α) :
    (l.map (fun x => f x - g x)).sum = (l.map f).sum - (l.map g).sum := by
  induction l with
  | nil => simp
  | cons x xs ih =>
    simp only [List.map_cons, List.sum_cons, ih]
    ring

lemma exact_percentage_sum (ts : List String) (hne : ts ≠ []) :
    (ts.dedup.map (fun t =>
      (ts.count t : ℚ) * 100 / (ts.length : ℚ))).sum = 100 := by
  have hn : (ts.length : ℚ) ≠ 0 := by
    have h0 : ts.length ≠ 0 := fun h => hne (List.length_eq_zero.1 h)
    exact Nat.cast_ne_zero.2 h0
  have h1 : (ts.dedup.map (fun t =>
      (ts.count t : ℚ) * 100 / (ts.length : ℚ))).sum
      = (ts.dedup.map (fun t => (ts.count t : ℚ))).sum *
        (100 / (ts.length : ℚ)) := by
    rw [← List.sum_map_mul_right]
    simp only [mul_div_assoc]
  have h2 : (ts.dedup.map (fun t => (ts.count t : ℚ))).sum = (ts.length : ℚ) := by
    have h3 := List.sum_map_count_dedup_eq_length ts
    calc (ts.dedup.map (fun t => (ts.count t : ℚ))).sum
        = ((ts.dedup.map (fun t => ts.count t)).map (fun k : ℕ => (k : ℚ))).sum := by
          rw [List.map_map]
          rfl
      _ = (((ts.dedup.map (fun t => ts.count t)).sum : ℕ) : ℚ) := by
          rw [Nat.cast_list_sum]
      _ = (ts.length : ℚ) := by rw [h3]
  rw [h1, h2]
  field_simp

/-- C8: the vote statistics for a match list one row per team with at
least one vote (and none for zero-vote teams), each row's percentage is
`100 * count / total` rounded to two decimals, and — whenever the match
has any vote — the listed percentages sum to 100 up to rounding (each of
the n rows contributes at most 1/200 of rounding error). -/
theorem vote_stats_public_correct (m : String) (votes : List Vote) :
    (∀ t, (∃ row ∈ vote_stats_public m votes, row.vote_team_id = t) ↔
        0 < (matchTeamIds m votes).count t) ∧
    (∀ row ∈ vote_stats_public m votes,
        row.vote_count = (matchTeamIds m votes).count row.vote_team_id ∧
        0 < row.vote_count ∧
        row.vote_percentage = round2 ((row.vote_count : ℚ) * 100 /
          ((matchTeamIds m votes).length : ℚ))) ∧
    (matchTeamIds m votes ≠ [] →
      |((vote_stats_public m votes).map (fun r => r.vote_percentage)).sum - 100|
        ≤ ((vote_stats_public m votes).length : ℚ) / 200) := by
  refine ⟨fun t => ?_, fun row hrow => ?_, fun hne => ?_⟩
  · constructor
    · rintro ⟨row, hrow, hteam⟩
      obtain ⟨u, hu, rfl⟩ := List.mem_map.1 hrow
      subst hteam
      exact List.count_pos_iff.2 (List.mem_dedup.1 hu)
    · intro hpos
      have hmem : t ∈ (matchTeamIds m votes).dedup :=
        List.mem_dedup.2 (List.count_pos_iff.1 hpos)
      exact ⟨_, List.mem_map.2 ⟨t, hmem, rfl⟩, rfl⟩
  · obtain ⟨u, hu, rfl⟩ := List.mem_map.1 hrow
    exact ⟨rfl, List.count_pos_iff.2 (List.mem_dedup.1 hu), rfl⟩
  · have hmap : (vote_stats_public m votes).map (fun r => r.vote_percentage)
        = (matchTeamIds m votes).dedup.map (fun t =>
            round2 (((matchTeamIds m votes).count t : ℚ) * 100 /
              ((matchTeamIds m votes).length : ℚ))) := by
      rw [vote_stats_public, List.map_map]; rfl
    have hlen : (vote_stats_public m votes).length
        = (matchTeamIds m votes).dedup.length := by
      rw [vote_stats_public, List.length_map]
    rw [hmap, hlen]
    have hsum := exact_percentage_sum (matchTeamIds m votes) hne
    have hdiff : ((matchTeamIds m votes).dedup.map (fun t =>
          round2 (((matchTeamIds m votes).count t : ℚ) * 100 /
            ((matchTeamIds m votes).length : ℚ)))).sum - 100
        = ((matchTeamIds m votes).dedup.map (fun t =>
          round2 (((matchTeamIds m votes).count t : ℚ) * 100 /
            ((matchTeamIds m votes).length : ℚ)) -
          ((matchTeamIds m votes).count t : ℚ) * 100 /
            ((matchTeamIds m votes).length : ℚ))).sum := by
      rw [list_sum_map_sub, hsum]
    rw [hdiff]
    have habs := abs_list_sum_le ((matchTeamIds m votes).dedup.map (fun t =>
      round2 (((matchTeamIds m votes).count t : ℚ) * 100 /
        ((matchTeamIds m votes).length : ℚ)) -
      ((matchTeamIds m votes).count t : ℚ) * 100 /
        ((matchTeamIds m votes).length : ℚ)))
    refine le_trans habs ?_
    rw [List.map_map]
    have hbd : ∀ x ∈ (matchTeamIds m votes).dedup.map
        ((fun x => |x|) ∘ (fun t =>
          round2 (((matchTeamIds m votes).count t : ℚ) * 100 /
            ((matchTeamIds m votes).length : ℚ)) -
          ((matchTeamIds m votes).count t : ℚ) * 100 /
            ((matchTeamIds m votes).length : ℚ))),
        x ≤ 1 / 200 := by
      intro x hx
      obtain ⟨t, -, rfl⟩ := List.mem_map.1 hx
      exact round2_sub_le _
    refine le_trans (list_sum_le_length_mul _ _ hbd) ?_
    rw [List.length_map]
    exact le_of_eq (by ring)

/-- C8 witness: a match with two votes for one team and one for another
yields rows 66.67 and 33.33, whose sum is within the rounding bound of
100. -/
theorem vote_stats_public_correct_witness :
    matchTeamIds "m1" [⟨"u1", "m1", some "tA", 1, 1⟩,
        ⟨"u2", "m1", some "tA", 1, 1⟩, ⟨"u3", "m1", some "tB", 1, 1⟩] ≠ [] ∧
    |((vote_stats_public "m1" [⟨"u1", "m1", some "tA", 1, 1⟩,
        ⟨"u2", "m1", some "tA", 1, 1⟩,
        ⟨"u3", "m1", some "tB", 1, 1⟩]).map (fun r => r.vote_percentage)).sum
      - 100| ≤
      ((vote_stats_public "m1" [⟨"u1", "m1", some "tA", 1, 1⟩,
        ⟨"u2", "m1", some "tA", 1, 1⟩,
        ⟨"u3", "m1", some "tB", 1, 1⟩]).length : ℚ) / 200 :=
  ⟨by decide,
   (vote_stats_public_correct "m1" [⟨"u1", "m1", some "tA", 1, 1⟩,
      ⟨"u2", "m1", some "tA", 1, 1⟩,
      ⟨"u3", "m1", some "tB", 1, 1⟩]).2.2 (by decide)⟩

/-- Row of `public.points` (src/unnamed/part_005 lines 398-409): keyed by
`id`, one row per (user_id, event_id) by `points_user_event_unique`,
`nr_points integer`. -/
structure PointsRow where
  id : String
  user_id : String
  event_id : String
  nr_points : Int
  deriving DecidableEq, Repr

/-- Row of `public.breakdown_pts` (src/unnamed/part_005 lines 453-465):
references its parent points row, unique per (parent_points_id, region). -/
structure BreakdownRow where
  parent_points_id : String
  region : String
  nr_points : Int
  deriving DecidableEq, Repr

/-- Sum of the `nr_points` of the breakdown rows attached to the points
row `pid`. -/
def breakdownSum (bps : List BreakdownRow) (pid : String) : Int :=
  ((bps.filter (fun b => b.parent_points_id == pid)).map
    (fun b => b.nr_points)).sum

/-- Modelled from the spec: the Leaderboard Aggregator's
`recomputeTotal(p, contestId)` (spec 4.6) runs in the privileged backend
and has no implementation under src/; only the `points` and
`breakdown_pts` tables are there, whose notes state "points.nr_points is
aggregate of breakdown_pts.nr_points" (src/unnamed/part_005 lines
672-675). It rewrites the (p, e) points row's total with the sum of its
current breakdown rows. -/
def recomputeTotal (pts : List PointsRow) (bps : List BreakdownRow)
    (p e : String) : List PointsRow :=
  pts.map (fun row =>
    if row.user_id == p && row.event_id == e then
      { row with nr_points := breakdownSum bps row.id }
    else row)

/-- C9: after `recomputeTotal p e`, the points row for the pair (p, e)
carries exactly the sum of the breakdown rows attached to it. -/
theorem recomputeTotal_eq_breakdown_sum (pts : List PointsRow)
    (bps : List BreakdownRow) (p e : String) (r : PointsRow)
    (hr : r ∈ recomputeTotal pts bps p e)
    (hu : r.user_id = p) (he : r.event_id = e) :
    r.nr_points = breakdownSum bps r.id := by
  obtain ⟨row, hrow, heq⟩ := List.mem_map.1 hr
  by_cases h : (row.user_id == p && row.event_id == e) = true
  · rw [if_pos h] at heq
    subst heq
    rfl
  · rw [if_neg h] at heq
    subst heq
    exact absurd (by simp [hu, he]) h

/-- C9 witness: breakdown rows americas 40 and emea 25 recompute to total
65; after adding pacific 10, recomputing gives 75. -/
theorem recomputeTotal_eq_breakdown_sum_witness :
    (⟨"pt1", "p1", "e1", 65⟩ : PointsRow) ∈
      recomputeTotal [⟨"pt1", "p1", "e1", 0⟩]
        [⟨"pt1", "americas", 40⟩, ⟨"pt1", "emea", 25⟩] "p1" "e1" ∧
    (⟨"pt1", "p1", "e1", 65⟩ : PointsRow).nr_points =
      breakdownSum [⟨"pt1", "americas", 40⟩, ⟨"pt1", "emea", 25⟩] "pt1" ∧
    recomputeTotal [⟨"pt1", "p1", "e1", 0⟩]
        [⟨"pt1", "americas", 40⟩, ⟨"pt1", "emea", 25⟩] "p1" "e1" =
      [⟨"pt1", "p1", "e1", 65⟩] ∧
    recomputeTotal
        (recomputeTotal [⟨"pt1", "p1", "e1", 0⟩]
          [⟨"pt1", "americas", 40⟩, ⟨"pt1", "emea", 25⟩] "p1" "e1")
        [⟨"pt1", "americas", 40⟩, ⟨"pt1", "emea", 25⟩, ⟨"pt1", "pacific", 10⟩]
        "p1" "e1" =
      [⟨"pt1", "p1", "e1", 75⟩] :=
  ⟨by decide,
   recomputeTotal_eq_breakdown_sum [⟨"pt1", "p1", "e1", 0⟩]
     [⟨"pt1", "americas", 40⟩, ⟨"pt1", "emea", 25⟩] "p1" "e1"
     ⟨"pt1", "p1", "e1", 65⟩ (by decide) rfl rfl,
   by decide, by decide⟩

end Rvlp
